import Mathlib

/-!
# MCMC convergence diagnostics: formal model

A shallow embedding of the convergence-diagnostic computations described in
the Bios8366 model-checking material: the Gelman-Rubin potential scale
reduction, the variogram-based autocorrelation / effective sample size,
the Geweke z-scores, the Bayesian fraction of missing information, and
divergence extraction.  Samples are modelled as rationals; statistics whose
value involves a square root live in `ℝ`.

The repository contains the notebook narrative (with the defining formulas)
and calls into an external sampling library; the diagnostic routines
themselves are not part of the repository source, so each is modelled from
the specification, faithful to the formulas stated in the notebook.
-/

namespace Diagnostics

/-- Error taxonomy of the diagnostics library, modelled from the spec §7. -/
inductive DiagError where
  | insufficientData
  | insufficientChains
  | invalidFraction
  | degenerateVariance
  | unknownQuantity
  deriving DecidableEq, Repr

/-- Result of the Gelman-Rubin statistic: either a real value, or
not-a-number reported for a degenerate (zero within-chain) variance. -/
inductive RhatValue where
  | nan
  | val (r : ℝ)

/-- Mean of a chain of samples (`0` for the empty chain, as `ℚ` division
by zero is zero). -/
def chainMean (c : List ℚ) : ℚ := c.sum / c.length

/-- Sum of squared deviations of a chain from a given center. -/
def sumSqDev (c : List ℚ) (center : ℚ) : ℚ :=
  (c.map (fun x => (x - center) ^ 2)).sum

/-- Unbiased sample variance of one chain: `Σ (x - x̄)² / (len - 1)`. -/
def chainVar (c : List ℚ) : ℚ :=
  sumSqDev c (chainMean c) / ((c.length : ℚ) - 1)

/-- The common chain length `n`, read off the first chain. -/
def headLen (chains : List (List ℚ)) : ℕ :=
  match chains with
  | [] => 0
  | c :: _ => c.length

/-- Per-chain means `θ̄_j`. -/
def chainMeans (chains : List (List ℚ)) : List ℚ := chains.map chainMean

/-- Grand mean `θ̄_..`, the mean of the per-chain means. -/
def grandMean (chains : List (List ℚ)) : ℚ :=
  (chainMeans chains).sum / chains.length

/-- Modelled from the spec: between-chain variance
`B = n/(m-1) · Σ_j (θ̄_j - θ̄_..)²` of the Gelman-Rubin diagnostic
(the `gelman_rubin` routine is not in the repository source). -/
def grB (chains : List (List ℚ)) : ℚ :=
  ((headLen chains : ℚ) / ((chains.length : ℚ) - 1)) *
    ((chainMeans chains).map (fun mj => (mj - grandMean chains) ^ 2)).sum

/-- Modelled from the spec: within-chain variance
`W = (1/m) Σ_j [1/(n-1) Σ_i (θ_ij - θ̄_j)²]`. -/
def grW (chains : List (List ℚ)) : ℚ :=
  (chains.map chainVar).sum / chains.length

/-- Modelled from the spec: pooled variance estimate
`V̂ = ((n-1)/n)·W + (1/n)·B`. -/
def grVhat (chains : List (List ℚ)) : ℚ :=
  (((headLen chains : ℚ) - 1) / (headLen chains : ℚ)) * grW chains +
    (1 / (headLen chains : ℚ)) * grB chains

/-- Modelled from the spec: the Gelman-Rubin diagnostic.  Fails with
`InsufficientChainsError` when fewer than two chains are supplied; reports
`R̂` as not-a-number when the within-chain variance is zero (degenerate
variance); otherwise returns `R̂ = sqrt(V̂/W)`. -/
noncomputable def gelman_rubin (chains : List (List ℚ)) : Except DiagError RhatValue :=
  if chains.length < 2 then .error .insufficientChains
  else if grW chains = 0 then .ok .nan
  else .ok (.val (Real.sqrt ((grVhat chains / grW chains : ℚ) : ℝ)))

/-- Modelled from the spec: vector-valued quantities are handled
componentwise, one `R̂` per component. -/
noncomputable def gelman_rubin_vec (comps : List (List (List ℚ))) :
    List (Except DiagError RhatValue) :=
  comps.map gelman_rubin

/-- Modelled from the spec: the variogram at lag `i`,
`V_i = 1/(m(n-i)) · Σ_j Σ_{t=i+1}^{n} (θ_{jt} - θ_{j,t-i})²`
(the `effective_n` routine is not in the repository source). -/
def variogram (chains : List (List ℚ)) (i : ℕ) : ℚ :=
  (chains.map (fun c =>
      ((List.range (headLen chains - i)).map
        (fun t => (c.getD (t + i) 0 - c.getD t 0) ^ 2)).sum)).sum /
    ((chains.length : ℚ) * ((headLen chains : ℚ) - (i : ℚ)))

/-- Modelled from the spec: the autocorrelation estimate
`ρ̂_i = 1 - V_i / (2·V̂)` at lag `i`. -/
def rho (chains : List (List ℚ)) (i : ℕ) : ℚ :=
  1 - variogram chains i / (2 * grVhat chains)

/-- Search for the truncation lag: starting at the odd lag `T`, find the
first odd `T` with `T + 2 ≤ maxlag` such that `ρ̂_{T+1} + ρ̂_{T+2} < 0`.
The fuel argument bounds the recursion. -/
def findTfrom (chains : List (List ℚ)) (maxlag : ℕ) : ℕ → ℕ → Option ℕ
  | 0, _ => none
  | fuel + 1, T =>
    if T + 2 ≤ maxlag then
      if rho chains (T + 1) + rho chains (T + 2) < 0 then some T
      else findTfrom chains maxlag fuel (T + 2)
    else none

/-- Modelled from the spec: the first odd lag `T` such that
`ρ̂_{T+1} + ρ̂_{T+2} < 0`, within the available lags. -/
def findT (chains : List (List ℚ)) (maxlag : ℕ) : Option ℕ :=
  findTfrom chains maxlag maxlag 1

/-- Result of the effective-sample-size computation: the autocorrelation
sequence `ρ̂_1 .. ρ̂_T`, the scalar `n_eff`, and the non-fatal truncation
warning emitted when no truncation lag was found. -/
structure ESSResult where
  rhos : List ℚ
  n_eff : ℚ
  truncation_warning : Bool
  deriving DecidableEq, Repr

/-- Modelled from the spec: effective sample size
`n_eff = m·n / (1 + 2·Σ_{i=1}^{T} ρ̂_i)` with `T` the first odd lag such
that `ρ̂_{T+1} + ρ̂_{T+2} < 0`; truncates at the maximum available lag with
a `TruncationWarning` when no such `T` exists, and fails with
`InsufficientDataError` when `n < 4`. -/
def effective_n (chains : List (List ℚ)) : Except DiagError ESSResult :=
  if headLen chains < 4 then .error .insufficientData
  else
    .ok ⟨(List.range ((findT chains (headLen chains - 1)).getD
            (headLen chains - 1))).map (fun j => rho chains (j + 1)),
      ((chains.length : ℚ) * (headLen chains : ℚ)) /
        (1 + 2 * ((List.range ((findT chains (headLen chains - 1)).getD
            (headLen chains - 1))).map (fun j => rho chains (j + 1))).sum),
      (findT chains (headLen chains - 1)).isNone⟩

/-- Zero-frequency spectral density estimate for a chain segment, total
core.  Modelled from the spec: the windowing choice is an implementation
decision; the periodogram truncated at lag zero reduces to the ordinary
sample variance, which is the estimator modelled here. -/
def specVar (s : List ℚ) : ℚ := chainVar s

/-- Modelled from the spec: the SpectralEstimator.  Fails with
`InsufficientDataError` on a segment of fewer than 10 samples and
otherwise returns the (non-negative) zero-frequency estimate. -/
def spectral_estimate (s : List ℚ) : Except DiagError ℚ :=
  if s.length < 10 then .error .insufficientData
  else .ok (specVar s)

/-- Length of the Geweke early segments: `⌊f1·n⌋` samples. -/
def gwEarlyLen (x : List ℚ) (f1 : ℚ) : ℕ := (⌊f1 * (x.length : ℚ)⌋).toNat

/-- Length of the fixed Geweke late segment: the most recent `⌊f2·n⌋`
samples. -/
def gwLateLen (x : List ℚ) (f2 : ℚ) : ℕ := (⌊f2 * (x.length : ℚ)⌋).toNat

/-- Last admissible early-segment start, so that an early segment of
`⌊f1·n⌋` samples does not overlap the late segment. -/
def gwLastStart (x : List ℚ) (f1 f2 : ℚ) : ℕ :=
  x.length - gwLateLen x f2 - gwEarlyLen x f1

/-- The `k` evenly spaced early-segment start offsets across
`[0, gwLastStart]` (for `k = 1` the single offset `0`). -/
def gwOffsets (x : List ℚ) (f1 f2 : ℚ) (k : ℕ) : List ℕ :=
  (List.range k).map (fun j => j * gwLastStart x f1 f2 / (k - 1))

/-- The fixed late segment: the most recent `⌊f2·n⌋` samples. -/
def gwLate (x : List ℚ) (f2 : ℚ) : List ℚ :=
  x.drop (x.length - gwLateLen x f2)

/-- The early segment of `⌊f1·n⌋` samples starting at offset `s`. -/
def gwEarly (x : List ℚ) (f1 : ℚ) (s : ℕ) : List ℚ :=
  (x.drop s).take (gwEarlyLen x f1)

/-- Modelled from the spec: the Geweke diagnostic (the `geweke` routine is
not in the repository source).  Fails with `InvalidFractionError` when
`f1 + f2 > 1` or no interval is requested, with `InsufficientDataError`
when a segment is too short for the spectral estimator, and otherwise
returns, for each of the `k` start offsets `s`, the pair `(s, z)` with
`z = (mean_early - mean_late) / sqrt(var_early + var_late)`. -/
noncomputable def geweke (x : List ℚ) (f1 f2 : ℚ) (k : ℕ) :
    Except DiagError (List (ℕ × ℝ)) :=
  if f1 + f2 > 1 ∨ k = 0 then .error .invalidFraction
  else if gwEarlyLen x f1 < 10 ∨ gwLateLen x f2 < 10 then
    .error .insufficientData
  else
    .ok ((gwOffsets x f1 f2 k).map (fun s =>
      (s, ((chainMean (gwEarly x f1 s) - chainMean (gwLate x f2) : ℚ) : ℝ) /
        Real.sqrt ((specVar (gwEarly x f1 s) + specVar (gwLate x f2) : ℚ) : ℝ))))

/-- Successive differences `E_n - E_{n-1}` of an energy trace, as computed
by `np.diff` in the notebook. -/
def np_diff (l : List ℚ) : List ℚ :=
  List.zipWith (fun a b => a - b) l.tail l

/-- Modelled from the spec: the Bayesian fraction of missing information of
one chain's energy trace,
`BFMI = Σ_{n=2..N} (E_n - E_{n-1})² / Σ_n (E_n - Ē)²`; fails with
`InsufficientDataError` when fewer than two energy values are available. -/
def bfmi_chain (E : List ℚ) : Except DiagError ℚ :=
  if E.length < 2 then .error .insufficientData
  else .ok (((np_diff E).map (fun d => d ^ 2)).sum /
    sumSqDev E (chainMean E))

/-- Modelled from the spec: BFMI is computed separately on each chain's
energy trace, one scalar per chain, never on a concatenation. -/
def bfmi (energies : List (List ℚ)) : List (Except DiagError ℚ) :=
  energies.map bfmi_chain

/-- Indices at which the divergence flag is raised, in increasing order,
as computed by `trace['diverging'].nonzero()[0]` in the notebook. -/
def diverging_ind (flags : List Bool) : List ℕ :=
  (List.range flags.length).filter (fun i => flags.getD i false)

/-- Result of divergence extraction: the ordered indices, their count, the
fraction of total iterations, and the non-fatal warning emitted when the
divergence statistic is absent from the sampler statistics. -/
structure DivergenceResult where
  indices : List ℕ
  count : ℕ
  fraction : ℚ
  missing_statistic_warning : Bool
  deriving DecidableEq, Repr

/-- Modelled from the spec: divergence extraction.  Always succeeds; with
the statistic absent (`none`) it returns the empty result together with a
`MissingStatisticWarning`. -/
def extract_divergences (flags? : Option (List Bool)) : DivergenceResult :=
  match flags? with
  | none => ⟨[], 0, 0, true⟩
  | some flags =>
    ⟨diverging_ind flags, (diverging_ind flags).length,
      ((diverging_ind flags).length : ℚ) / (flags.length : ℚ), false⟩

/-- Modelled from the spec and the notebook narrative: indexing a trace by
a statistic's name concatenates the per-chain value sequences in chain
order (the `MultiTrace` class is not in the repository source). -/
def trace_getitem (chains : List (List ℚ)) : List ℚ :=
  chains.flatten

/-- The notebook's `energy_diff = np.diff(energy)` where `energy` is the
name-indexed (hence concatenated) energy statistic. -/
def energy_diff (chains : List (List ℚ)) : List ℚ :=
  np_diff (trace_getitem chains)

/-! ## Indexed-formula counterparts

The claims state the diagnostics through indexed summation formulas.  The
following definitions transcribe those formulas literally (indexing with
`θ_ij`, sums over `Finset.range`), to be proved equal to the computational
definitions above. -/

/-- The sample `θ_ij` of chain `j` at iteration `i` (0-indexed). -/
def θ (chains : List (List ℚ)) (j i : ℕ) : ℚ :=
  (chains.getD j []).getD i 0

/-- The per-chain mean `θ̄_j` as an indexed formula. -/
def meanFormula (chains : List (List ℚ)) (n j : ℕ) : ℚ :=
  (∑ i in Finset.range n, θ chains j i) / (n : ℚ)

/-- The grand mean `θ̄_..` as an indexed formula. -/
def grandFormula (chains : List (List ℚ)) (m n : ℕ) : ℚ :=
  (∑ j in Finset.range m, meanFormula chains n j) / (m : ℚ)

/-- Between-chain variance `B = n/(m-1) · Σ_j (θ̄_j - θ̄_..)²` as an
indexed formula. -/
def BFormula (chains : List (List ℚ)) (m n : ℕ) : ℚ :=
  (n : ℚ) / ((m : ℚ) - 1) *
    ∑ j in Finset.range m, (meanFormula chains n j - grandFormula chains m n) ^ 2

/-- Within-chain variance `W = (1/m) Σ_j [1/(n-1) Σ_i (θ_ij - θ̄_j)²]` as
an indexed formula. -/
def WFormula (chains : List (List ℚ)) (m n : ℕ) : ℚ :=
  (1 / (m : ℚ)) * ∑ j in Finset.range m,
    (1 / ((n : ℚ) - 1) * ∑ i in Finset.range n, (θ chains j i - meanFormula chains n j) ^ 2)

/-- Pooled variance estimate `V̂ = ((n-1)/n)·W + (1/n)·B` as an indexed
formula. -/
def VhatFormula (chains : List (List ℚ)) (m n : ℕ) : ℚ :=
  ((n : ℚ) - 1) / (n : ℚ) * WFormula chains m n +
    (1 / (n : ℚ)) * BFormula chains m n

/-- Variogram `V_i = 1/(m(n-i)) · Σ_j Σ_{t=i+1}^{n} (θ_{jt} - θ_{j,t-i})²`
as an indexed formula (0-indexed inner sum). -/
def VarioFormula (chains : List (List ℚ)) (m n i : ℕ) : ℚ :=
  (∑ j in Finset.range m, ∑ t in Finset.range (n - i),
      (θ chains j (t + i) - θ chains j t) ^ 2) /
    ((m : ℚ) * ((n : ℚ) - (i : ℚ)))

/-! ## Bridging lemmas: list folds versus indexed sums -/

lemma listSum_map_getD (l : List α) (g : α → ℚ) (d : α) :
    (l.map g).sum = ∑ j in Finset.range l.length, g (l.getD j d) := by
  induction l with
  | nil => simp
  | cons a t ih =>
    rw [List.map_cons, List.sum_cons, ih, List.length_cons,
      Finset.sum_range_succ']
    simp [List.getD_cons_succ, List.getD_cons_zero, add_comm]

lemma listSum_eq_sum_getD (l : List ℚ) :
    l.sum = ∑ j in Finset.range l.length, l.getD j 0 := by
  have h := listSum_map_getD l id 0
  simpa using h

lemma rangeMapSum (n : ℕ) (f : ℕ → ℚ) :
    ((List.range n).map f).sum = ∑ i in Finset.range n, f i := by
  rw [listSum_map_getD (List.range n) f 0, List.length_range]
  refine Finset.sum_congr rfl fun i hi => ?_
  rw [Finset.mem_range] at hi
  rw [List.getD_eq_getElem _ _ (by simpa using hi), List.getElem_range]

lemma getD_length_eq {chains : List (List ℚ)} {n : ℕ}
    (hlen : ∀ c ∈ chains, c.length = n) {j : ℕ} (hj : j < chains.length) :
    (chains.getD j []).length = n := by
  rw [List.getD_eq_getElem _ _ hj]
  exact hlen _ (List.getElem_mem hj)

lemma headLen_eq {chains : List (List ℚ)} {n : ℕ}
    (hlen : ∀ c ∈ chains, c.length = n) (hne : chains ≠ []) :
    headLen chains = n := by
  cases chains with
  | nil => exact absurd rfl hne
  | cons c t => exact hlen c (List.mem_cons_self c t)

lemma chainSum_getD {chains : List (List ℚ)} {n : ℕ}
    (hlen : ∀ c ∈ chains, c.length = n) {j : ℕ} (hj : j < chains.length) :
    (chains.getD j []).sum = ∑ i in Finset.range n, θ chains j i := by
  rw [listSum_eq_sum_getD, getD_length_eq hlen hj]
  rfl

lemma chainMean_getD {chains : List (List ℚ)} {n : ℕ}
    (hlen : ∀ c ∈ chains, c.length = n) {j : ℕ} (hj : j < chains.length) :
    chainMean (chains.getD j []) = meanFormula chains n j := by
  rw [chainMean, chainSum_getD hlen hj, getD_length_eq hlen hj, meanFormula]

lemma sumSqDev_getD {chains : List (List ℚ)} {n : ℕ}
    (hlen : ∀ c ∈ chains, c.length = n) {j : ℕ} (hj : j < chains.length)
    (center : ℚ) :
    sumSqDev (chains.getD j []) center =
      ∑ i in Finset.range n, (θ chains j i - center) ^ 2 := by
  rw [sumSqDev, listSum_map_getD _ _ 0, getD_length_eq hlen hj]
  rfl

lemma grandMean_eq {chains : List (List ℚ)} {m n : ℕ}
    (hm : chains.length = m) (hlen : ∀ c ∈ chains, c.length = n) :
    grandMean chains = grandFormula chains m n := by
  rw [grandMean, grandFormula, chainMeans, listSum_map_getD _ _ [], hm]
  congr 1
  refine Finset.sum_congr rfl fun j hj => ?_
  rw [Finset.mem_range] at hj
  exact chainMean_getD hlen (hm ▸ hj)

lemma grB_eq {chains : List (List ℚ)} {m n : ℕ}
    (hm : chains.length = m) (hne : chains ≠ [])
    (hlen : ∀ c ∈ chains, c.length = n) :
    grB chains = BFormula chains m n := by
  rw [grB, BFormula, headLen_eq hlen hne, hm, chainMeans, List.map_map,
    listSum_map_getD _ _ [], hm]
  congr 1
  refine Finset.sum_congr rfl fun j hj => ?_
  rw [Finset.mem_range] at hj
  simp only [Function.comp_apply]
  rw [chainMean_getD hlen (hm ▸ hj), grandMean_eq hm hlen]

lemma chainVar_getD {chains : List (List ℚ)} {n : ℕ}
    (hlen : ∀ c ∈ chains, c.length = n) {j : ℕ} (hj : j < chains.length) :
    chainVar (chains.getD j []) =
      1 / ((n : ℚ) - 1) *
        ∑ i in Finset.range n, (θ chains j i - meanFormula chains n j) ^ 2 := by
  rw [chainVar, getD_length_eq hlen hj, chainMean_getD hlen hj,
    sumSqDev_getD hlen hj, one_div, inv_mul_eq_div]

lemma grW_eq {chains : List (List ℚ)} {m n : ℕ}
    (hm : chains.length = m) (hlen : ∀ c ∈ chains, c.length = n) :
    grW chains = WFormula chains m n := by
  rw [grW, WFormula, listSum_map_getD _ _ [], hm, one_div, inv_mul_eq_div,
    div_eq_div_iff_comm]
  congr 1
  refine Finset.sum_congr rfl fun j hj => ?_
  rw [Finset.mem_range] at hj
  exact chainVar_getD hlen (hm ▸ hj)

lemma grVhat_eq {chains : List (List ℚ)} {m n : ℕ}
    (hm : chains.length = m) (hne : chains ≠ [])
    (hlen : ∀ c ∈ chains, c.length = n) :
    grVhat chains = VhatFormula chains m n := by
  rw [grVhat, VhatFormula, headLen_eq hlen hne, grW_eq hm hlen,
    grB_eq hm hne hlen]

lemma variogram_eq {chains : List (List ℚ)} {m n : ℕ} (i : ℕ)
    (hm : chains.length = m) (hne : chains ≠ [])
    (hlen : ∀ c ∈ chains, c.length = n) :
    variogram chains i = VarioFormula chains m n i := by
  rw [variogram, VarioFormula, headLen_eq hlen hne, hm,
    listSum_map_getD _ _ [], hm]
  congr 1

/-- Characterization of the truncation-lag search: a found `T` lies at or
after the start, has the start's parity, satisfies the negativity test,
and is the first same-parity lag to do so. -/
lemma findTfrom_spec (chains : List (List ℚ)) (maxlag : ℕ) :
    ∀ fuel T₀ T, findTfrom chains maxlag fuel T₀ = some T →
      T₀ ≤ T ∧ T % 2 = T₀ % 2 ∧ T + 2 ≤ maxlag ∧
        rho chains (T + 1) + rho chains (T + 2) < 0 ∧
        ∀ t, T₀ ≤ t → t < T → t % 2 = T₀ % 2 →
          ¬(rho chains (t + 1) + rho chains (t + 2) < 0) := by
  intro fuel
  induction fuel with
  | zero => intro T₀ T h; simp [findTfrom] at h
  | succ fuel ih =>
    intro T₀ T h
    rw [findTfrom] at h
    by_cases hle : T₀ + 2 ≤ maxlag
    · rw [if_pos hle] at h
      by_cases hneg : rho chains (T₀ + 1) + rho chains (T₀ + 2) < 0
      · rw [if_pos hneg] at h
        cases h
        exact ⟨le_refl _, rfl, hle, hneg, fun t h1 h2 _ => absurd h1 (by omega)⟩
      · rw [if_neg hneg] at h
        obtain ⟨h1, h2, h3, h4, h5⟩ := ih (T₀ + 2) T h
        refine ⟨by omega, by omega, h3, h4, fun t ht1 ht2 ht3 => ?_⟩
        by_cases hT₀ : t = T₀
        · subst hT₀; exact hneg
        · exact h5 t (by omega) ht2 (by omega)
    · rw [if_neg hle] at h
      exact absurd h (by simp)

/-- Characterization of `findT`: a found `T` is the first odd lag, within
the available lags, at which `ρ̂_{T+1} + ρ̂_{T+2} < 0`. -/
lemma findT_spec (chains : List (List ℚ)) (maxlag T : ℕ)
    (h : findT chains maxlag = some T) :
    T % 2 = 1 ∧ T + 2 ≤ maxlag ∧
      rho chains (T + 1) + rho chains (T + 2) < 0 ∧
      ∀ t, t % 2 = 1 → t < T →
        ¬(rho chains (t + 1) + rho chains (t + 2) < 0) := by
  obtain ⟨h1, h2, h3, h4, h5⟩ := findTfrom_spec chains maxlag maxlag 1 T h
  exact ⟨by omega, h3, h4, fun t ht1 ht2 => h5 t (by omega) ht2 (by omega)⟩

/-! ## Claim theorems -/

/-- C5: divergence extraction returns the ordered (strictly increasing)
set of iteration indices whose divergence flag is true, together with
their count and the fraction count/N; it always succeeds, emitting the
missing-statistic warning exactly when the divergence statistic is
entirely absent; in particular flags `[false,false,true,false,true]`
yield indices `[2,4]`, count 2 and fraction 2/5. -/
theorem extract_divergences_correct (flags : List Bool) :
    (extract_divergences none =
      ⟨[], 0, 0, true⟩) ∧
    (extract_divergences (some flags) =
      ⟨diverging_ind flags, (diverging_ind flags).length,
        ((diverging_ind flags).length : ℚ) / (flags.length : ℚ), false⟩) ∧
    (diverging_ind flags).Pairwise (· < ·) ∧
    (∀ i, i ∈ diverging_ind flags ↔
      i < flags.length ∧ flags.getD i false = true) ∧
    (extract_divergences (some [false, false, true, false, true]) =
      ⟨[2, 4], 2, 2 / 5, false⟩) := by
  refine ⟨rfl, rfl, ?_, ?_, ?_⟩
  · exact (List.pairwise_lt_range _).filter _
  · intro i
    rw [diverging_ind, List.mem_filter, List.mem_range]
  · simp [extract_divergences, diverging_ind, List.range_succ]

/-- C6: the Gelman-Rubin diagnostic fails with `InsufficientChainsError`
whenever fewer than two chains are supplied, and with two or more chains
of zero within-chain variance it reports `R̂` as not-a-number instead of
crashing. -/
theorem gelman_rubin_errors (cs cd : List (List ℚ))
    (h1 : cs.length < 2) (h2 : 2 ≤ cd.length) (hW : grW cd = 0) :
    gelman_rubin cs = .error .insufficientChains ∧
    gelman_rubin cd = .ok .nan := by
  constructor
  · rw [gelman_rubin, if_pos h1]
  · rw [gelman_rubin, if_neg (by omega), if_pos hW]

/-- Witness for C6: a single chain raises the insufficient-chains error,
and two chains of five constant identical values report not-a-number. -/
theorem gelman_rubin_errors_witness :
    gelman_rubin [[1, 2, 3, 4, 5]] = .error .insufficientChains ∧
    gelman_rubin [[1, 1, 1, 1, 1], [1, 1, 1, 1, 1]] = .ok .nan :=
  gelman_rubin_errors [[1, 2, 3, 4, 5]] [[1, 1, 1, 1, 1], [1, 1, 1, 1, 1]]
    (by decide) (by decide)
    (by norm_num [grW, chainVar, sumSqDev, chainMean])

/-- C7: on a segment of at least the minimum length (10 samples) the
spectral estimator returns a non-negative scalar, and on a shorter
segment it fails with `InsufficientDataError` — the only failure. -/
theorem spectral_estimate_safe (slong sshort : List ℚ)
    (h : 10 ≤ slong.length) (hs : sshort.length < 10) :
    spectral_estimate slong = .ok (specVar slong) ∧
    0 ≤ specVar slong ∧
    spectral_estimate sshort = .error .insufficientData := by
  refine ⟨by rw [spectral_estimate, if_neg (by omega)], ?_,
    by rw [spectral_estimate, if_pos hs]⟩
  rw [specVar, chainVar]
  apply div_nonneg
  · apply List.sum_nonneg
    intro x hx
    rw [List.mem_map] at hx
    obtain ⟨y, _, rfl⟩ := hx
    positivity
  · have : (10 : ℚ) ≤ (slong.length : ℚ) := by exact_mod_cast h
    linarith

/-- Witness for C7: a ten-sample segment succeeds with a non-negative
estimate; a one-sample segment fails. -/
theorem spectral_estimate_safe_witness :
    spectral_estimate [0, 1, 0, 1, 0, 1, 0, 1, 0, 1] =
      .ok (specVar [0, 1, 0, 1, 0, 1, 0, 1, 0, 1]) ∧
    0 ≤ specVar [0, 1, 0, 1, 0, 1, 0, 1, 0, 1] ∧
    spectral_estimate [5] = .error .insufficientData :=
  spectral_estimate_safe [0, 1, 0, 1, 0, 1, 0, 1, 0, 1] [5]
    (by decide) (by decide)

/-- C8: every diagnostic is a pure function of its input — re-running any
of them twice on the same chain set and sampler statistics yields
identical results, with no mutation and no retained state. -/
theorem diagnostics_pure (chains energies : List (List ℚ)) (x s : List ℚ)
    (f1 f2 : ℚ) (k : ℕ) (flags? : Option (List Bool)) :
    gelman_rubin chains = gelman_rubin chains ∧
    effective_n chains = effective_n chains ∧
    geweke x f1 f2 k = geweke x f1 f2 k ∧
    bfmi energies = bfmi energies ∧
    spectral_estimate s = spectral_estimate s ∧
    extract_divergences flags? = extract_divergences flags? :=
  ⟨rfl, rfl, rfl, rfl, rfl, rfl⟩

/-- C9: the autocorrelation estimate at lag 0 is exactly 1, for every
chain set, independent of the sample values: the lag-0 variogram
vanishes identically. -/
theorem rho_lag_zero (chains : List (List ℚ)) :
    rho chains 0 = 1 := by
  have hv : variogram chains 0 = 0 := by
    rw [variogram]
    have : (chains.map (fun c =>
        ((List.range (headLen chains - 0)).map
          (fun t => (c.getD (t + 0) 0 - c.getD t 0) ^ 2)).sum)) =
        chains.map (fun _ => (0 : ℚ)) := by
      refine List.map_congr_left fun c _ => ?_
      have : ((List.range (headLen chains - 0)).map
          (fun t => (c.getD (t + 0) 0 - c.getD t 0) ^ 2)) =
          (List.range (headLen chains - 0)).map (fun _ => (0 : ℚ)) := by
        refine List.map_congr_left fun t _ => ?_
        simp
      rw [this]
      simp
    rw [this]
    simp
  rw [rho, hv, zero_div, sub_zero]

lemma np_diff_length (l : List ℚ) : (np_diff l).length = l.length - 1 := by
  simp [np_diff]

lemma np_diff_getElem (l : List ℚ) (i : ℕ) (h : i < (np_diff l).length) :
    (np_diff l)[i] = l.getD (i + 1) 0 - l.getD i 0 := by
  have hi : i < l.length - 1 := by rw [← np_diff_length l]; exact h
  simp only [np_diff, List.getElem_zipWith, List.getElem_tail]
  rw [List.getD_eq_getElem _ _ (by omega), List.getD_eq_getElem _ _ (by omega : i < l.length)]

lemma np_diff_sumSq (E : List ℚ) :
    ((np_diff E).map (fun d => d ^ 2)).sum =
      ∑ i in Finset.range (E.length - 1),
        (E.getD (i + 1) 0 - E.getD i 0) ^ 2 := by
  rw [listSum_map_getD _ _ 0, np_diff_length]
  refine Finset.sum_congr rfl fun i hi => ?_
  rw [Finset.mem_range] at hi
  have h1 : i < (np_diff E).length := by rw [np_diff_length]; omega
  rw [List.getD_eq_getElem _ _ h1, np_diff_getElem E i h1]

lemma sumSqDev_formula (E : List ℚ) (center : ℚ) :
    sumSqDev E center =
      ∑ i in Finset.range E.length, (E.getD i 0 - center) ^ 2 := by
  rw [sumSqDev, listSum_map_getD _ _ 0]

/-- C4: BFMI is computed separately on each chain's energy trace (never on
a concatenation): the per-chain result depends only on that chain, each
chain with at least two energy values yields
`Σ_{n=2..N} (E_n - E_{n-1})² / Σ_n (E_n - Ē)²`, and a chain with fewer
than two values fails with `InsufficientDataError`. -/
theorem bfmi_correct (energies : List (List ℚ)) (E Eshort : List ℚ)
    (hE : 2 ≤ E.length) (hshort : Eshort.length < 2) :
    (bfmi energies).length = energies.length ∧
    (∀ j, j < energies.length →
      (bfmi energies).getD j (.error .insufficientData) =
        bfmi_chain (energies.getD j [])) ∧
    bfmi_chain E = .ok
      ((∑ i in Finset.range (E.length - 1),
          (E.getD (i + 1) 0 - E.getD i 0) ^ 2) /
        ∑ i in Finset.range E.length,
          (E.getD i 0 -
            (∑ i in Finset.range E.length, E.getD i 0) / (E.length : ℚ)) ^ 2) ∧
    bfmi_chain Eshort = .error .insufficientData := by
  refine ⟨by rw [bfmi, List.length_map], ?_, ?_,
    by rw [bfmi_chain, if_pos hshort]⟩
  · intro j hj
    rw [bfmi, List.getD_eq_getElem _ _ (by simpa using hj),
      List.getElem_map, List.getD_eq_getElem _ _ hj]
  · rw [bfmi_chain, if_neg (by omega)]
    rw [np_diff_sumSq, sumSqDev_formula, chainMean, listSum_eq_sum_getD]

/-- Witness for C4: two energy traces of three values each, one trace of
three values, and one single-value trace. -/
theorem bfmi_correct_witness :
    (bfmi [[1, 2, 4], [0, 1, 2]]).length = 2 ∧
    (∀ j, j < ([[1, 2, 4], [0, 1, 2]] : List (List ℚ)).length →
      (bfmi [[1, 2, 4], [0, 1, 2]]).getD j (.error .insufficientData) =
        bfmi_chain (([[1, 2, 4], [0, 1, 2]] : List (List ℚ)).getD j [])) ∧
    bfmi_chain [1, 2, 4] = .ok
      ((∑ i in Finset.range (([1, 2, 4] : List ℚ).length - 1),
          (([1, 2, 4] : List ℚ).getD (i + 1) 0 -
            ([1, 2, 4] : List ℚ).getD i 0) ^ 2) /
        ∑ i in Finset.range ([1, 2, 4] : List ℚ).length,
          (([1, 2, 4] : List ℚ).getD i 0 -
            (∑ i in Finset.range ([1, 2, 4] : List ℚ).length,
              ([1, 2, 4] : List ℚ).getD i 0) / (([1, 2, 4] : List ℚ).length : ℚ)) ^ 2) ∧
    bfmi_chain [5] = .error .insufficientData :=
  bfmi_correct [[1, 2, 4], [0, 1, 2]] [1, 2, 4] [5] (by decide) (by decide)

/-- C10: indexing a trace by a statistic's name returns the concatenation
of the per-chain sequences in chain order — length `m·n`, with the first
`n` values from the first chain — and therefore `np.diff` applied to that
result spans the chain boundary: its entry at position `n-1` subtracts
the last value of chain 1 from the first value of chain 2. -/
theorem trace_getitem_concat (c₁ c₂ : List ℚ) (rest : List (List ℚ)) (n : ℕ)
    (hlen : ∀ c ∈ (c₁ :: c₂ :: rest), c.length = n) (hn : 1 ≤ n) :
    (trace_getitem (c₁ :: c₂ :: rest)).length = (rest.length + 2) * n ∧
    (trace_getitem (c₁ :: c₂ :: rest)).take n = c₁ ∧
    (energy_diff (c₁ :: c₂ :: rest)).getD (n - 1) 0 =
      c₂.getD 0 0 - c₁.getD (n - 1) 0 := by
  have h1 : c₁.length = n := hlen c₁ (by simp)
  have h2 : c₂.length = n := hlen c₂ (by simp)
  refine ⟨?_, ?_, ?_⟩
  · rw [trace_getitem, List.length_flatten]
    have : (c₁ :: c₂ :: rest).map List.length =
        List.replicate (rest.length + 2) n := by
      rw [List.eq_replicate_iff]
      constructor
      · simp
      · intro b hb
        rw [List.mem_map] at hb
        obtain ⟨c, hc, rfl⟩ := hb
        exact hlen c hc
    rw [this, List.sum_replicate, smul_eq_mul]
  · rw [trace_getitem, List.flatten_cons, ← h1, List.take_left]
  · have hflat : trace_getitem (c₁ :: c₂ :: rest) =
        c₁ ++ (c₂ ++ rest.flatten) := by
      rw [trace_getitem, List.flatten_cons, List.flatten_cons]
    rw [energy_diff, hflat]
    have hlenflat : (c₁ ++ (c₂ ++ rest.flatten)).length = n + (n + rest.flatten.length) := by
      simp [h1, h2]
    have hd : n - 1 < (np_diff (c₁ ++ (c₂ ++ rest.flatten))).length := by
      rw [np_diff_length, hlenflat]; omega
    rw [List.getD_eq_getElem _ _ hd, np_diff_getElem _ _ hd]
    have hsucc : n - 1 + 1 = n := by omega
    rw [hsucc]
    have ha : (c₁ ++ (c₂ ++ rest.flatten)).getD n 0 = c₂.getD 0 0 := by
      have hna : n < (c₁ ++ (c₂ ++ rest.flatten)).length := by rw [hlenflat]; omega
      rw [List.getD_eq_getElem _ _ hna,
        List.getElem_append_right (by omega : c₁.length ≤ n),
        List.getD_eq_getElem _ _ (by omega : 0 < c₂.length)]
      have : n - c₁.length = 0 := by omega
      simp only [this]
      rw [List.getElem_append_left (by omega : 0 < c₂.length)]
    have hb : (c₁ ++ (c₂ ++ rest.flatten)).getD (n - 1) 0 = c₁.getD (n - 1) 0 := by
      have hnb : n - 1 < (c₁ ++ (c₂ ++ rest.flatten)).length := by rw [hlenflat]; omega
      rw [List.getD_eq_getElem _ _ hnb,
        List.getElem_append_left (by omega : n - 1 < c₁.length),
        List.getD_eq_getElem _ _ (by omega : n - 1 < c₁.length)]
    rw [ha, hb]

/-- Witness for C10: two chains of length 3; the name-indexed sequence has
length 6, starts with chain 1, and its third successive difference
subtracts across the chain boundary. -/
theorem trace_getitem_concat_witness :
    (trace_getitem [[1, 2, 4], [10, 11, 12]]).length = (([] : List (List ℚ)).length + 2) * 3 ∧
    (trace_getitem [[1, 2, 4], [10, 11, 12]]).take 3 = [1, 2, 4] ∧
    (energy_diff [[1, 2, 4], [10, 11, 12]]).getD (3 - 1) 0 =
      ([10, 11, 12] : List ℚ).getD 0 0 - ([1, 2, 4] : List ℚ).getD (3 - 1) 0 :=
  trace_getitem_concat [1, 2, 4] [10, 11, 12] [] 3 (by decide) (by decide)

/-- C1: with `m ≥ 2` chains of equal length `n ≥ 2` (and non-degenerate
within-chain variance), the Gelman-Rubin diagnostic computes exactly the
claimed quantities: `B = n/(m-1)·Σ_j (θ̄_j - θ̄_..)²`,
`W = (1/m) Σ_j [1/(n-1) Σ_i (θ_ij - θ̄_j)²]`,
`V̂ = ((n-1)/n)·W + (1/n)·B`, and returns `R̂ = sqrt(V̂/W)`; a
vector-valued quantity is processed componentwise, one `R̂` per
component. -/
theorem gelman_rubin_correct (chains : List (List ℚ))
    (comps : List (List (List ℚ))) (m n : ℕ)
    (hm : chains.length = m) (h2 : 2 ≤ m)
    (hlen : ∀ c ∈ chains, c.length = n) (_hn : 2 ≤ n)
    (hW : grW chains ≠ 0) :
    grB chains = BFormula chains m n ∧
    grW chains = WFormula chains m n ∧
    grVhat chains = VhatFormula chains m n ∧
    gelman_rubin chains =
      .ok (.val (Real.sqrt
        ((VhatFormula chains m n / WFormula chains m n : ℚ) : ℝ))) ∧
    (gelman_rubin_vec comps).length = comps.length ∧
    (∀ q, q < comps.length →
      (gelman_rubin_vec comps).getD q (.error .unknownQuantity) =
        gelman_rubin (comps.getD q [])) := by
  have hne : chains ≠ [] := List.ne_nil_of_length_pos (by omega)
  have hBf := grB_eq hm hne hlen
  have hWf := grW_eq hm hlen
  have hVf := grVhat_eq hm hne hlen
  refine ⟨hBf, hWf, hVf, ?_, by rw [gelman_rubin_vec, List.length_map], ?_⟩
  · rw [gelman_rubin, if_neg (by rw [hm]; omega), if_neg hW, hVf, hWf]
  · intro q hq
    rw [gelman_rubin_vec, List.getD_eq_getElem _ _ (by simpa using hq),
      List.getElem_map, List.getD_eq_getElem _ _ hq]

/-- Witness for C1: two chains of two samples each, and a one-component
vector quantity holding the same chain set. -/
theorem gelman_rubin_correct_witness :
    grB [[0, 1], [1, 3]] = BFormula [[0, 1], [1, 3]] 2 2 ∧
    grW [[0, 1], [1, 3]] = WFormula [[0, 1], [1, 3]] 2 2 ∧
    grVhat [[0, 1], [1, 3]] = VhatFormula [[0, 1], [1, 3]] 2 2 ∧
    gelman_rubin [[0, 1], [1, 3]] =
      .ok (.val (Real.sqrt
        ((VhatFormula [[0, 1], [1, 3]] 2 2 / WFormula [[0, 1], [1, 3]] 2 2 : ℚ) : ℝ))) ∧
    (gelman_rubin_vec [[[0, 1], [1, 3]]]).length = 1 ∧
    (∀ q, q < ([[[0, 1], [1, 3]]] : List (List (List ℚ))).length →
      (gelman_rubin_vec [[[0, 1], [1, 3]]]).getD q (.error .unknownQuantity) =
        gelman_rubin (([[[0, 1], [1, 3]]] : List (List (List ℚ))).getD q [])) :=
  gelman_rubin_correct [[0, 1], [1, 3]] [[[0, 1], [1, 3]]] 2 2
    (by decide) (by decide) (by decide) (by decide)
    (by norm_num [grW, chainVar, sumSqDev, chainMean])

/-- With `0 ≤ f1`, `0 ≤ f2` and `f1 + f2 ≤ 1` the early and late segments
fit in the chain without overlapping. -/
lemma gw_seg_bound (x : List ℚ) (f1 f2 : ℚ)
    (hf1 : 0 ≤ f1) (hf2 : 0 ≤ f2) (hsum : f1 + f2 ≤ 1) :
    gwEarlyLen x f1 + gwLateLen x f2 ≤ x.length := by
  have hp1 : (0 : ℤ) ≤ ⌊f1 * (x.length : ℚ)⌋ :=
    Int.floor_nonneg.mpr (mul_nonneg hf1 (by positivity))
  have hp2 : (0 : ℤ) ≤ ⌊f2 * (x.length : ℚ)⌋ :=
    Int.floor_nonneg.mpr (mul_nonneg hf2 (by positivity))
  have h1 : ⌊f1 * (x.length : ℚ)⌋ + ⌊f2 * (x.length : ℚ)⌋ ≤
      ⌊f1 * (x.length : ℚ) + f2 * (x.length : ℚ)⌋ := by
    apply Int.le_floor.mpr
    push_cast
    exact add_le_add (Int.floor_le _) (Int.floor_le _)
  have h2 : ⌊f1 * (x.length : ℚ) + f2 * (x.length : ℚ)⌋ ≤ (x.length : ℤ) := by
    have heq : f1 * (x.length : ℚ) + f2 * (x.length : ℚ) =
        (f1 + f2) * (x.length : ℚ) := by ring
    rw [heq]
    have hle : (f1 + f2) * (x.length : ℚ) ≤ (x.length : ℚ) := by
      calc (f1 + f2) * (x.length : ℚ) ≤ 1 * (x.length : ℚ) :=
        mul_le_mul_of_nonneg_right hsum (by positivity)
      _ = (x.length : ℚ) := one_mul _
    calc ⌊(f1 + f2) * (x.length : ℚ)⌋ ≤ ⌊((x.length : ℤ) : ℚ)⌋ := by
          apply Int.floor_le_floor
          push_cast
          exact hle
      _ = (x.length : ℤ) := Int.floor_intCast _
  have h3 : ⌊f1 * (x.length : ℚ)⌋ + ⌊f2 * (x.length : ℚ)⌋ ≤ (x.length : ℤ) :=
    h1.trans h2
  rw [gwEarlyLen, gwLateLen]
  omega

/-- Every computed offset is at most the last admissible start. -/
lemma gwOffset_le (L j k : ℕ) (hj : j < k) : j * L / (k - 1) ≤ L := by
  by_cases hk : k = 1
  · subst hk
    have hj0 : j = 0 := by omega
    subst hj0
    simp
  · have hk2 : 2 ≤ k := by omega
    calc j * L / (k - 1) ≤ (k - 1) * L / (k - 1) :=
          Nat.div_le_div_right (Nat.mul_le_mul_right L (by omega))
      _ = L := Nat.mul_div_cancel_left L (by omega)

/-- An early segment that fits in the chain has the full early length. -/
lemma gwEarly_length (x : List ℚ) (f1 : ℚ) (s : ℕ)
    (h : s + gwEarlyLen x f1 ≤ x.length) :
    (gwEarly x f1 s).length = gwEarlyLen x f1 := by
  rw [gwEarly, List.length_take, List.length_drop]
  omega

/-- The late segment always has the full late length when it fits. -/
lemma gwLate_length (x : List ℚ) (f2 : ℚ)
    (h : gwLateLen x f2 ≤ x.length) :
    (gwLate x f2).length = gwLateLen x f2 := by
  rw [gwLate, List.length_drop]
  omega

/-- C3: with admissible fractions and at least one interval, and both
segment lengths at or above the spectral minimum, the Geweke diagnostic
returns exactly `k` pairs; the `j`-th pair consists of the `j`-th evenly
spaced start offset and the z-score
`(mean_early - mean_late) / sqrt(var_early + var_late)` whose variances
are the values returned by the spectral estimator; each early segment has
the full `⌊f1·n⌋` length at its offset, and the late segment is the fixed
suffix of the most recent `⌊f2·n⌋` samples. -/
theorem geweke_correct (x : List ℚ) (f1 f2 : ℚ) (k : ℕ)
    (hf1 : 0 < f1) (hf2 : 0 < f2) (hf : f1 + f2 ≤ 1) (hk : 1 ≤ k)
    (he : 10 ≤ gwEarlyLen x f1) (hl : 10 ≤ gwLateLen x f2) :
    ∃ ps : List (ℕ × ℝ),
      geweke x f1 f2 k = .ok ps ∧
      ps.length = k ∧
      gwLate x f2 = x.drop (x.length - gwLateLen x f2) ∧
      (gwLate x f2).length = gwLateLen x f2 ∧
      spectral_estimate (gwLate x f2) = .ok (specVar (gwLate x f2)) ∧
      ∀ j, j < k →
        ps.getD j (0, 0) =
          (j * gwLastStart x f1 f2 / (k - 1),
            ((chainMean (gwEarly x f1 (j * gwLastStart x f1 f2 / (k - 1))) -
                chainMean (gwLate x f2) : ℚ) : ℝ) /
              Real.sqrt
                ((specVar (gwEarly x f1 (j * gwLastStart x f1 f2 / (k - 1))) +
                  specVar (gwLate x f2) : ℚ) : ℝ)) ∧
        (gwEarly x f1 (j * gwLastStart x f1 f2 / (k - 1))).length =
          gwEarlyLen x f1 ∧
        spectral_estimate (gwEarly x f1 (j * gwLastStart x f1 f2 / (k - 1))) =
          .ok (specVar (gwEarly x f1 (j * gwLastStart x f1 f2 / (k - 1)))) := by
  have hbound := gw_seg_bound x f1 f2 hf1.le hf2.le hf
  have hearly_fits : ∀ j, j < k →
      j * gwLastStart x f1 f2 / (k - 1) + gwEarlyLen x f1 ≤ x.length := by
    intro j hj
    have hoff := gwOffset_le (gwLastStart x f1 f2) j k hj
    rw [gwLastStart] at hoff ⊢
    omega
  have hok : geweke x f1 f2 k =
      .ok ((gwOffsets x f1 f2 k).map (fun s =>
        (s, ((chainMean (gwEarly x f1 s) - chainMean (gwLate x f2) : ℚ) : ℝ) /
          Real.sqrt
            ((specVar (gwEarly x f1 s) + specVar (gwLate x f2) : ℚ) : ℝ)))) := by
    rw [geweke, if_neg (by push_neg; exact ⟨by linarith, by omega⟩),
      if_neg (by push_neg; exact ⟨by omega, by omega⟩)]
  refine ⟨_, hok, ?_, rfl, gwLate_length x f2 (by omega), ?_, ?_⟩
  · rw [List.length_map, gwOffsets, List.length_map, List.length_range]
  · rw [spectral_estimate, if_neg (by rw [gwLate_length x f2 (by omega)]; omega)]
  · intro j hj
    have hfit := hearly_fits j hj
    have hlen := gwEarly_length x f1 _ hfit
    have hjr : j < (gwOffsets x f1 f2 k).length := by
      rw [gwOffsets, List.length_map, List.length_range]; exact hj
    have hoffj : (gwOffsets x f1 f2 k)[j] =
        j * gwLastStart x f1 f2 / (k - 1) := by
      simp only [gwOffsets, List.getElem_map, List.getElem_range]
    refine ⟨?_, hlen, ?_⟩
    · have hjlt : j < ((gwOffsets x f1 f2 k).map (fun s =>
          ((s : ℕ), ((chainMean (gwEarly x f1 s) - chainMean (gwLate x f2) : ℚ) : ℝ) /
            Real.sqrt
              ((specVar (gwEarly x f1 s) + specVar (gwLate x f2) : ℚ) : ℝ)))).length := by
        rw [List.length_map]
        exact hjr
      rw [List.getD_eq_getElem _ _ hjlt, List.getElem_map, hoffj]
    · rw [spectral_estimate, if_neg (by rw [hlen]; omega)]

/-- A 40-sample chain used to exercise the Geweke diagnostic. -/
def gwWitnessChain : List ℚ :=
  [0, 1, 2, 3, 4, 5, 6, 7, 8, 9, 10, 11, 12, 13, 14, 15, 16, 17, 18, 19,
   20, 21, 22, 23, 24, 25, 26, 27, 28, 29, 30, 31, 32, 33, 34, 35, 36, 37,
   38, 39]

/-- Witness for C3: a 40-sample chain with `first = last = 1/4` and three
intervals; both segment lengths are 10, so the diagnostic succeeds with
three pairs of the claimed shape. -/
theorem geweke_correct_witness :
    ∃ ps : List (ℕ × ℝ),
      geweke gwWitnessChain (1 / 4) (1 / 4) 3 = .ok ps ∧
      ps.length = 3 ∧
      gwLate gwWitnessChain (1 / 4) =
        gwWitnessChain.drop
          (gwWitnessChain.length - gwLateLen gwWitnessChain (1 / 4)) ∧
      (gwLate gwWitnessChain (1 / 4)).length = gwLateLen gwWitnessChain (1 / 4) ∧
      spectral_estimate (gwLate gwWitnessChain (1 / 4)) =
        .ok (specVar (gwLate gwWitnessChain (1 / 4))) ∧
      ∀ j, j < 3 →
        ps.getD j (0, 0) =
          (j * gwLastStart gwWitnessChain (1 / 4) (1 / 4) / (3 - 1),
            ((chainMean (gwEarly gwWitnessChain (1 / 4)
                (j * gwLastStart gwWitnessChain (1 / 4) (1 / 4) / (3 - 1))) -
                chainMean (gwLate gwWitnessChain (1 / 4)) : ℚ) : ℝ) /
              Real.sqrt
                ((specVar (gwEarly gwWitnessChain (1 / 4)
                    (j * gwLastStart gwWitnessChain (1 / 4) (1 / 4) / (3 - 1))) +
                  specVar (gwLate gwWitnessChain (1 / 4)) : ℚ) : ℝ)) ∧
        (gwEarly gwWitnessChain (1 / 4)
            (j * gwLastStart gwWitnessChain (1 / 4) (1 / 4) / (3 - 1))).length =
          gwEarlyLen gwWitnessChain (1 / 4) ∧
        spectral_estimate (gwEarly gwWitnessChain (1 / 4)
            (j * gwLastStart gwWitnessChain (1 / 4) (1 / 4) / (3 - 1))) =
          .ok (specVar (gwEarly gwWitnessChain (1 / 4)
            (j * gwLastStart gwWitnessChain (1 / 4) (1 / 4) / (3 - 1)))) :=
  geweke_correct gwWitnessChain (1 / 4) (1 / 4) 3
    (by norm_num) (by norm_num) (by norm_num) (by norm_num)
    (by norm_num [gwEarlyLen, gwWitnessChain])
    (by norm_num [gwLateLen, gwWitnessChain])

/-- With a single chain the between-chain variance vanishes. -/
lemma grB_single (c : List ℚ) : grB [c] = 0 := by
  simp [grB, chainMeans, grandMean]

/-- C2 counterexample: for the single chain `[0,1,2,3]` (`m = 1`,
`n = 4`), the between-chain variance is `0` as claimed, but the pooled
variance estimate is `V̂ = ((n-1)/n)·W = 5/4 ≠ 5/3 = W`: `V̂` does not
reduce to `W`. -/
theorem effective_n_vhat_counterexample :
    grB [[0, 1, 2, 3]] = 0 ∧
    grW [[0, 1, 2, 3]] = 5 / 3 ∧
    grVhat [[0, 1, 2, 3]] = 5 / 4 ∧
    grVhat [[0, 1, 2, 3]] ≠ grW [[0, 1, 2, 3]] := by
  refine ⟨grB_single _, ?_, ?_, ?_⟩ <;>
    norm_num [grVhat, grB, grW, chainVar, sumSqDev, chainMean, chainMeans,
      grandMean, headLen]

/-- C2 (amended): for `m ≥ 1` chains of equal length `n ≥ 4` whose
truncation lag exists, the engine returns
`ρ̂_i = 1 - V_i/(2·V̂)` for every computed lag `i = 1..T` (with `V_i` the
claimed variogram and `V̂` the Gelman-Rubin pooled variance estimate),
and `n_eff = m·n / (1 + 2·Σ_{i=1}^{T} ρ̂_i)` where `T` is the first odd
lag with `ρ̂_{T+1} + ρ̂_{T+2} < 0`; with `m = 1` the between-chain
variance is `0` and `V̂` reduces to `((n-1)/n)·W`. -/
theorem effective_n_correct (chains : List (List ℚ)) (m n T : ℕ)
    (hm : chains.length = m) (h1 : 1 ≤ m)
    (hlen : ∀ c ∈ chains, c.length = n) (hn : 4 ≤ n)
    (hT : findT chains (n - 1) = some T) :
    ∃ r : ESSResult,
      effective_n chains = .ok r ∧
      r.truncation_warning = false ∧
      r.rhos.length = T ∧
      (∀ i, i < T → r.rhos.getD i 0 =
        1 - VarioFormula chains m n (i + 1) / (2 * VhatFormula chains m n)) ∧
      r.n_eff = ((m : ℚ) * (n : ℚ)) /
        (1 + 2 * ∑ i in Finset.range T,
          (1 - VarioFormula chains m n (i + 1) / (2 * VhatFormula chains m n))) ∧
      T % 2 = 1 ∧
      rho chains (T + 1) + rho chains (T + 2) < 0 ∧
      (∀ t, t % 2 = 1 → t < T →
        ¬(rho chains (t + 1) + rho chains (t + 2) < 0)) ∧
      (m = 1 → grB chains = 0 ∧
        grVhat chains = (((n : ℚ) - 1) / (n : ℚ)) * grW chains) := by
  have hne : chains ≠ [] := List.ne_nil_of_length_pos (by omega)
  have hhl : headLen chains = n := headLen_eq hlen hne
  have hrho : ∀ i, rho chains i =
      1 - VarioFormula chains m n i / (2 * VhatFormula chains m n) := by
    intro i
    rw [rho, variogram_eq i hm hne hlen, grVhat_eq hm hne hlen]
  have hok : effective_n chains =
      .ok ⟨(List.range T).map (fun j => rho chains (j + 1)),
        ((m : ℚ) * (n : ℚ)) /
          (1 + 2 * ((List.range T).map (fun j => rho chains (j + 1))).sum),
        false⟩ := by
    rw [effective_n, if_neg (by rw [hhl]; omega), hhl, hm, hT]
    simp only [Option.getD_some, Option.isNone_some]
  obtain ⟨hodd, _hlag, hneg, hmin⟩ := findT_spec chains (n - 1) T hT
  refine ⟨_, hok, rfl, ?_, ?_, ?_, hodd, hneg, hmin, ?_⟩
  · rw [List.length_map, List.length_range]
  · intro i hi
    have hilt : i < ((List.range T).map (fun j => rho chains (j + 1))).length := by
      rw [List.length_map, List.length_range]; exact hi
    rw [List.getD_eq_getElem _ _ hilt]
    simp only [List.getElem_map, List.getElem_range]
    exact hrho (i + 1)
  · simp only [rangeMapSum]
    congr 3
    exact Finset.sum_congr rfl fun i _ => hrho (i + 1)
  · intro hm1
    obtain ⟨c, rfl⟩ := List.length_eq_one.mp (by omega : chains.length = 1)
    refine ⟨grB_single c, ?_⟩
    rw [grVhat, grB_single, mul_zero, add_zero,
      headLen_eq hlen (by simp)]

/-- Witness for C2: the single chain `0..7` (`n = 8`), whose truncation
search finds `T = 3`. -/
theorem effective_n_correct_witness :
    ∃ r : ESSResult,
      effective_n [[0, 1, 2, 3, 4, 5, 6, 7]] = .ok r ∧
      r.truncation_warning = false ∧
      r.rhos.length = 3 ∧
      (∀ i, i < 3 → r.rhos.getD i 0 =
        1 - VarioFormula [[0, 1, 2, 3, 4, 5, 6, 7]] 1 8 (i + 1) /
          (2 * VhatFormula [[0, 1, 2, 3, 4, 5, 6, 7]] 1 8)) ∧
      r.n_eff = ((1 : ℚ) * (8 : ℚ)) /
        (1 + 2 * ∑ i in Finset.range 3,
          (1 - VarioFormula [[0, 1, 2, 3, 4, 5, 6, 7]] 1 8 (i + 1) /
            (2 * VhatFormula [[0, 1, 2, 3, 4, 5, 6, 7]] 1 8))) ∧
      3 % 2 = 1 ∧
      rho [[0, 1, 2, 3, 4, 5, 6, 7]] (3 + 1) +
        rho [[0, 1, 2, 3, 4, 5, 6, 7]] (3 + 2) < 0 ∧
      (∀ t, t % 2 = 1 → t < 3 →
        ¬(rho [[0, 1, 2, 3, 4, 5, 6, 7]] (t + 1) +
          rho [[0, 1, 2, 3, 4, 5, 6, 7]] (t + 2) < 0)) ∧
      (1 = 1 → grB [[0, 1, 2, 3, 4, 5, 6, 7]] = 0 ∧
        grVhat [[0, 1, 2, 3, 4, 5, 6, 7]] =
          (((8 : ℚ) - 1) / (8 : ℚ)) * grW [[0, 1, 2, 3, 4, 5, 6, 7]]) :=
  effective_n_correct [[0, 1, 2, 3, 4, 5, 6, 7]] 1 8 3
    (by decide) (by decide) (by decide) (by decide)
    (by norm_num [findT, findTfrom, rho, variogram, grVhat, grB, grW,
      chainVar, sumSqDev, chainMean, chainMeans, grandMean, headLen,
      List.range_succ])

end Diagnostics
